import Mathlib

/-!
Verification of the payments engine core.

A shallow embedding of the payments repository's core logic:

* `src/transactions.rs` — the transaction state machine (`Transaction::apply`),
  the command-to-transaction conversion (`TryFrom<TransactionCommand>`), and the
  ledger repository semantics (`MemoryRepo` over a `HashMap<u32, Transaction>`).
* `src/accounts.rs` — the account balance engine (`Account::new`,
  `Account::apply`) and the account store semantics
  (`MemoryRepo` over a `HashMap<u16, Account>`).
* `src/payments.rs` — the orchestrator (`PaymentsEngine::process_transaction`).

Modelling conventions:

* `rust_decimal::Decimal` amounts are modelled as exact rationals `ℚ`; the only
  operations the code uses are addition, subtraction and order comparison, which
  are exact on `Decimal` within its range, and the spec mandates exact decimal
  arithmetic with no rounding.
* `u16` client ids and `u32` transaction ids are modelled as `ℕ`; the code does
  no arithmetic on them, only equality tests and map keying.
* `anyhow::Error` values produced with `anyhow!` are modelled as their message
  `String`; `Result<T, E>` is `Except E T`.
* the two in-memory `HashMap`-backed repositories are modelled as association
  lists with insert-replaces-key semantics; `RefCell` interior mutability is
  modelled by explicit state passing in the orchestrator.
-/

deriving instance DecidableEq for Except

/-- `TransactionKind` from `src/transactions.rs`: the type of a transaction,
with the amount payload for deposits and withdrawals. -/
inductive TransactionKind where
  | Deposit (amount : ℚ)
  | Withdrawal (amount : ℚ)
  | Dispute
  | Resolve
  | ChargeBack
deriving DecidableEq, Repr

/-- `TransactionCommand` from `src/transactions.rs`: the external input unit. -/
structure TransactionCommand where
  kind : TransactionKind
  tx : ℕ
  client : ℕ
deriving DecidableEq, Repr

/-- `Transaction` from `src/transactions.rs`: the durable record of a
transaction's current state. -/
structure Transaction where
  tx : ℕ
  amount : ℚ
  kind : TransactionKind
  client : ℕ
deriving DecidableEq, Repr

/-- `TransactionError` from `src/transactions.rs`. -/
inductive TransactionError where
  | InvalidState (src tgt : TransactionKind)
  | UnexpectedClient (expected got : ℕ)
  | UnexpectedTx (expected got : ℕ)
deriving DecidableEq, Repr

/-- `TryFrom<TransactionCommand> for Transaction` (`src/transactions.rs`,
lines 36–55): a command may open a record only with a Deposit or Withdrawal;
the `anyhow!` error is modelled as its message string. -/
def Transaction.tryFrom (c : TransactionCommand) : Except String Transaction :=
  match c.kind with
  | .Deposit amount =>
      .ok { tx := c.tx, amount := amount, kind := c.kind, client := c.client }
  | .Withdrawal amount =>
      .ok { tx := c.tx, amount := amount, kind := c.kind, client := c.client }
  | _ => .error "transactions must start with a deposit or withdrawal"

/-- `Transaction::apply` from `src/transactions.rs` (lines 80–126): the
transaction state machine over a stored record and an incoming command. -/
def Transaction.apply (self : Transaction) (c : TransactionCommand) :
    Except TransactionError Transaction :=
  if self.tx ≠ c.tx then
    .error (.UnexpectedTx self.tx c.tx)
  else if self.client ≠ c.client then
    .error (.UnexpectedClient self.client c.client)
  else
    match self.kind, c.kind with
    | .Deposit amount, .Dispute =>
        .ok { tx := self.tx, client := self.client, amount := amount, kind := c.kind }
    | .Withdrawal amount, .Dispute =>
        .ok { tx := self.tx, client := self.client, amount := amount, kind := c.kind }
    | .Dispute, .Resolve =>
        .ok { tx := self.tx, client := self.client, amount := self.amount, kind := c.kind }
    | .Dispute, .ChargeBack =>
        .ok { tx := self.tx, client := self.client, amount := self.amount, kind := c.kind }
    | _, _ => .error (.InvalidState self.kind c.kind)

/-- `AccountError` from `src/accounts.rs`. -/
inductive AccountError where
  | InsufficientFunds
  | InvalidClient
  | InvalidInitialTransaction
deriving DecidableEq, Repr

/-- `LockedStatus` from `src/accounts.rs`. -/
inductive LockedStatus where
  | Locked
  | Unlocked
deriving DecidableEq, Repr

/-- `Account` from `src/accounts.rs`. -/
structure Account where
  client : ℕ
  available : ℚ
  held : ℚ
  locked : LockedStatus
deriving DecidableEq, Repr

/-- `Account::new` from `src/accounts.rs` (lines 36–46): creates an account
from a deposit transaction; any other kind fails. -/
def Account.new (transaction : Transaction) : Except AccountError Account :=
  match transaction.kind with
  | .Deposit amount =>
      .ok { client := transaction.client, available := amount,
            held := 0, locked := .Unlocked }
  | _ => .error .InvalidInitialTransaction

/-- `Account::is_locked` from `src/accounts.rs`. -/
def Account.isLocked (self : Account) : Bool :=
  self.locked = LockedStatus.Locked

/-- `Account::apply` from `src/accounts.rs` (lines 62–109): the account balance
engine. Note the locked-account rejection reuses `InsufficientFunds`; the
enum has no separate locked variant. -/
def Account.apply (self : Account) (t : Transaction) : Except AccountError Account :=
  if self.client ≠ t.client then
    .error .InvalidClient
  else if self.isLocked then
    .error .InsufficientFunds
  else
    match t.kind with
    | .Deposit _ =>
        .ok { self with available := self.available + t.amount }
    | .Withdrawal _ =>
        let available := self.available - t.amount
        if available < 0 then
          .error .InsufficientFunds
        else
          .ok { self with available := available }
    | .Dispute =>
        .ok { self with available := self.available - t.amount,
                        held := self.held + t.amount }
    | .Resolve =>
        .ok { self with held := self.held - t.amount,
                        available := self.available + t.amount }
    | .ChargeBack =>
        .ok { self with held := self.held - t.amount, locked := .Locked }

/-- Lookup in an association list keyed by `ℕ`, the model of
`HashMap::get(&id).cloned()` used by both `MemoryRepo::get` implementations. -/
def listFind {α : Type} : List (ℕ × α) → ℕ → Option α
  | [], _ => none
  | (k, v) :: rest, i => if k = i then some v else listFind rest i

/-- Insert-or-replace in an association list keyed by `ℕ`, the model of
`HashMap::insert` used by both `MemoryRepo::save` implementations. -/
def listInsert {α : Type} : List (ℕ × α) → ℕ → α → List (ℕ × α)
  | [], k, v => [(k, v)]
  | (k', v') :: rest, k, v =>
      if k' = k then (k, v) :: rest else (k', v') :: listInsert rest k v

/-- The mutable state owned by the two `MemoryRepo`s behind the
`PaymentsEngine`: the transaction ledger (`transactions::MemoryRepo`) and the
account store (`accounts::MemoryRepo`). -/
structure EngineState where
  transactions : List (ℕ × Transaction)
  accounts : List (ℕ × Account)
deriving DecidableEq, Repr

/-- Both repositories start empty (`MemoryRepo::new`). -/
def EngineState.empty : EngineState := { transactions := [], accounts := [] }

/-- `transactions::TransactionsRepo::get` on `MemoryRepo`. -/
def EngineState.getTransaction (s : EngineState) (id : ℕ) : Option Transaction :=
  listFind s.transactions id

/-- `accounts::AccountsRepo::get` on `MemoryRepo`. -/
def EngineState.getAccount (s : EngineState) (id : ℕ) : Option Account :=
  listFind s.accounts id

/-- The error type of `PaymentsEngine::process_transaction`: `anyhow::Result`
boxes the state-machine error, the `anyhow!` conversion message, or the
balance-engine error. -/
inductive ProcessError where
  | transactionErr (e : TransactionError)
  | conversionErr (msg : String)
  | accountErr (e : AccountError)
deriving DecidableEq, Repr

/-- The first stage of `PaymentsEngine::process_transaction`
(`src/payments.rs` lines 25–28): consult the ledger, then drive the state
machine (`prev.apply(t)`) or the conversion (`Transaction::try_from(t)`). -/
def stageTransaction (s : EngineState) (t : TransactionCommand) :
    Except ProcessError Transaction :=
  match s.getTransaction t.tx with
  | some prev =>
      match prev.apply t with
      | .ok tr => .ok tr
      | .error e => .error (.transactionErr e)
  | none =>
      match Transaction.tryFrom t with
      | .ok tr => .ok tr
      | .error msg => .error (.conversionErr msg)

/-- The second stage of `PaymentsEngine::process_transaction`
(`src/payments.rs` lines 30–33): consult the account store, then drive the
balance engine (`acc.apply(transaction)`) or create (`Account::new`). -/
def stageAccount (s : EngineState) (transaction : Transaction) :
    Except ProcessError Account :=
  match s.getAccount transaction.client with
  | some acc =>
      match acc.apply transaction with
      | .ok a => .ok a
      | .error e => .error (.accountErr e)
  | none =>
      match Account.new transaction with
      | .ok a => .ok a
      | .error e => .error (.accountErr e)

/-- `PaymentsEngine::process_transaction` from `src/payments.rs` (lines
24–39). All fallible steps precede the two repository saves, and the
`MemoryRepo` saves are infallible, so an error propagated by `?` leaves both
stores untouched; the pair returns the (possibly updated) state together with
the error, mirroring the caller that keeps the repositories on failure. -/
def processTransaction (s : EngineState) (t : TransactionCommand) :
    EngineState × Option ProcessError :=
  match stageTransaction s t with
  | .error e => (s, some e)
  | .ok transaction =>
      match stageAccount s transaction with
      | .error e => (s, some e)
      | .ok updated =>
          ({ accounts := listInsert s.accounts updated.client updated,
             transactions := listInsert s.transactions transaction.tx transaction },
           none)

/-- The transition table exactly as the spec states it (§4.3 table): the four
legal (stored kind, incoming kind) pairs. Spec-side definition, to be compared
with `Transaction.apply`. -/
def specLegalTransition : TransactionKind → TransactionKind → Bool
  | .Deposit _, .Dispute => true
  | .Withdrawal _, .Dispute => true
  | .Dispute, .Resolve => true
  | .Dispute, .ChargeBack => true
  | _, _ => false

/-- The amount rule of the spec's table: a dispute takes the root's amount (the
payload of the stored Deposit/Withdrawal kind); Resolve and ChargeBack carry
the stored amount unchanged. -/
def transitionAmount (prev : Transaction) : ℚ :=
  match prev.kind with
  | .Deposit a => a
  | .Withdrawal a => a
  | _ => prev.amount

/-- Fold of the engine over a command batch, starting from empty repositories,
keeping the state and dropping per-command errors (`main.rs` logs a failed
command and continues with the next one). -/
def processAll (cmds : List TransactionCommand) : EngineState :=
  cmds.foldl (fun s t => (processTransaction s t).1) .empty

/-- Repository key coherence: the ledger maps a key only to a transaction with
that id, and the account store maps a key only to an account of that client. -/
def EngineState.coherent (s : EngineState) : Prop :=
  (∀ k tr, s.getTransaction k = some tr → tr.tx = k) ∧
  (∀ c acc, s.getAccount c = some acc → acc.client = c)

theorem listFind_insert_self {α : Type} (l : List (ℕ × α)) (k : ℕ) (v : α) :
    listFind (listInsert l k v) k = some v := by
  induction l with
  | nil => simp [listInsert, listFind]
  | cons hd tl ih =>
      obtain ⟨k', v'⟩ := hd
      by_cases h : k' = k <;> simp [listInsert, listFind, h, ih]

theorem listFind_insert_ne {α : Type} (l : List (ℕ × α)) (k i : ℕ) (v : α)
    (h : k ≠ i) : listFind (listInsert l k v) i = listFind l i := by
  induction l with
  | nil => simp [listInsert, listFind, h]
  | cons hd tl ih =>
      obtain ⟨k', v'⟩ := hd
      by_cases h' : k' = k
      · subst h'; simp [listInsert, listFind, h]
      · simp [listInsert, listFind, h']
        by_cases h'' : k' = i <;> simp [h'', ih]

theorem listFind_insert_cases {α : Type} (l : List (ℕ × α)) (k i : ℕ) (v w : α)
    (h : listFind (listInsert l k v) i = some w) :
    (i = k ∧ w = v) ∨ listFind l i = some w := by
  by_cases hik : k = i
  · subst hik
    rw [listFind_insert_self] at h
    exact Or.inl ⟨rfl, (Option.some_injective _ h).symm⟩
  · rw [listFind_insert_ne l k i v hik] at h
    exact Or.inr h

/-- C7: `Account::new` succeeds iff the transaction's kind is Deposit,
producing `available = amount`, `held = 0`, `locked = false`; any other kind
fails with the invalid-opening error (`InvalidInitialTransaction` in the code,
`InvalidOpeningTransaction` in the spec's taxonomy), so no account is ever
created by a Withdrawal, Dispute, Resolve, or ChargeBack. -/
theorem account_new_deposit_only (t : Transaction) :
    (∀ a, t.kind = .Deposit a →
        Account.new t = .ok { client := t.client, available := a,
                              held := 0, locked := .Unlocked }) ∧
    ((∀ a, t.kind ≠ .Deposit a) →
        Account.new t = .error .InvalidInitialTransaction) := by
  constructor
  · intro a h
    simp [Account.new, h]
  · intro h
    cases hk : t.kind with
    | Deposit a => exact absurd hk (h a)
    | _ => simp [Account.new, hk]

theorem account_new_deposit_only_witness :
    Account.new (Transaction.mk 1 8 (.Withdrawal 8) 1) =
      .error .InvalidInitialTransaction :=
  (account_new_deposit_only (Transaction.mk 1 8 (.Withdrawal 8) 1)).2
    (fun a h => by simp at h)

/-- C1 counterexample: the locked-account rejection does not carry a distinct
`AccountLocked` error kind. A Deposit on a locked account (the spec's Scenario
C says this is rejected `AccountLocked`) returns `InsufficientFunds` — the very
same `AccountError` value that an underfunded Withdrawal on an unlocked
account returns (the spec's Scenario A calls that one `InsufficientFunds`), so
the two rejections the spec presents as distinct kinds are indistinguishable
in the code. -/
theorem locked_rejection_reuses_insufficient_funds :
    (Account.mk 1 0 0 .Locked).apply (Transaction.mk 2 5 (.Deposit 5) 1) =
      .error AccountError.InsufficientFunds ∧
    (Account.mk 1 7 0 .Unlocked).apply (Transaction.mk 3 100 (.Withdrawal 100) 1) =
      .error AccountError.InsufficientFunds ∧
    (Account.mk 1 0 0 .Locked).apply (Transaction.mk 2 5 (.Deposit 5) 1) =
      (Account.mk 1 7 0 .Unlocked).apply (Transaction.mk 3 100 (.Withdrawal 100) 1) := by
  refine ⟨by decide, ?_, ?_⟩ <;> norm_num [Account.apply, Account.isLocked]

/-- C1 amended: for every account whose locked flag is true and every
transaction whose client matches, `Account::apply` rejects uniformly for all
five kinds, with the `InsufficientFunds` variant (the code has no separate
locked kind); `apply` takes its receiver by value and returns `Err`, so the
stored account is left unchanged. -/
theorem apply_locked_uniform_rejection (acc : Account) (t : Transaction)
    (hc : acc.client = t.client) (hl : acc.locked = .Locked) :
    acc.apply t = .error .InsufficientFunds := by
  simp [Account.apply, Account.isLocked, hc, hl]

theorem apply_locked_uniform_rejection_witness :
    (Account.mk 7 100 0 .Locked).apply (Transaction.mk 2 5 (.Resolve) 7) =
      .error .InsufficientFunds :=
  apply_locked_uniform_rejection (Account.mk 7 100 0 .Locked)
    (Transaction.mk 2 5 (.Resolve) 7) rfl rfl

/-- C5: for every unlocked account with matching client and every Withdrawal
transaction, `Account::apply` fails with `InsufficientFunds` and changes
nothing when `available - amount` is negative, otherwise succeeds with
`available` decreased by exactly the amount and no other field changed;
consequently every successful Withdrawal application leaves
`available ≥ 0`. -/
theorem apply_withdrawal_floor (acc : Account) (t : Transaction) (a : ℚ)
    (hc : acc.client = t.client) (hl : acc.locked = .Unlocked)
    (hk : t.kind = .Withdrawal a) :
    (acc.available - t.amount < 0 →
        acc.apply t = .error .InsufficientFunds) ∧
    (0 ≤ acc.available - t.amount →
        acc.apply t = .ok { acc with available := acc.available - t.amount }) ∧
    (∀ acc', acc.apply t = .ok acc' → 0 ≤ acc'.available) := by
  have herr : acc.available - t.amount < 0 →
      acc.apply t = .error .InsufficientFunds := fun hneg => by
    simp [Account.apply, Account.isLocked, hc, hl, hk, hneg]
  have hsucc : 0 ≤ acc.available - t.amount →
      acc.apply t = .ok { acc with available := acc.available - t.amount } :=
    fun hpos => by
      simp [Account.apply, Account.isLocked, hc, hl, hk, not_lt.mpr hpos]
  refine ⟨herr, hsucc, fun acc' hok => ?_⟩
  by_cases hneg : acc.available - t.amount < 0
  · rw [herr hneg] at hok
    exact absurd hok (by simp)
  · rw [hsucc (not_lt.mp hneg)] at hok
    obtain rfl : ({ acc with available := acc.available - t.amount } : Account) = acc' :=
      Except.ok.inj hok
    exact not_lt.mp hneg

theorem rat_fact_two_sub_ten : ((2:ℚ) - 10 < 0) := by norm_num

theorem apply_withdrawal_floor_witness :
    (Account.mk 4 2 0 .Unlocked).apply (Transaction.mk 9 10 (.Withdrawal 10) 4) =
      .error .InsufficientFunds :=
  (apply_withdrawal_floor (Account.mk 4 2 0 .Unlocked)
      (Transaction.mk 9 10 (.Withdrawal 10) 4) 10 rfl rfl rfl).1
    rat_fact_two_sub_ten

/-- C6: for every unlocked account with matching client, `Account::apply` of a
Dispute moves the amount from `available` to `held` with no floor check (it
succeeds even when the resulting `available` is negative); a Resolve moves it
from `held` back to `available`; a ChargeBack subtracts the amount from `held`,
leaves `available` unchanged, and sets `locked`; no other field changes in any
of the three cases. -/
theorem apply_dispute_resolve_chargeback (acc : Account) (t : Transaction)
    (hc : acc.client = t.client) (hl : acc.locked = .Unlocked) :
    (t.kind = .Dispute →
        acc.apply t = .ok { acc with available := acc.available - t.amount,
                                     held := acc.held + t.amount }) ∧
    (t.kind = .Resolve →
        acc.apply t = .ok { acc with held := acc.held - t.amount,
                                     available := acc.available + t.amount }) ∧
    (t.kind = .ChargeBack →
        acc.apply t = .ok { acc with held := acc.held - t.amount,
                                     locked := .Locked }) := by
  refine ⟨fun hk => ?_, fun hk => ?_, fun hk => ?_⟩ <;>
    simp [Account.apply, Account.isLocked, hc, hl, hk]

theorem apply_dispute_resolve_chargeback_witness :
    (Account.mk 3 10 0 .Unlocked).apply (Transaction.mk 1 10 .Dispute 3) =
      .ok (Account.mk 3 ((10:ℚ) - 10) ((0:ℚ) + 10) .Unlocked) :=
  (apply_dispute_resolve_chargeback (Account.mk 3 10 0 .Unlocked)
      (Transaction.mk 1 10 .Dispute 3) rfl rfl).1 rfl

/-- C2: for every stored transaction and every incoming command with matching
tx id and client, the state machine succeeds exactly on the four pairs of the
spec's table — Deposit→Dispute and Withdrawal→Dispute (the dispute taking the
root's amount), Dispute→Resolve and Dispute→ChargeBack (amount carried
unchanged) — preserving tx and client, and every other (from, to) pair fails
with the invalid-transition error carrying both kinds (`InvalidState` in the
code, `InvalidTransition` in the spec's taxonomy). In particular Deposit and
Withdrawal are never legal target kinds, and no transition exits Resolve or
ChargeBack. -/
theorem transaction_apply_transition_table (prev : Transaction)
    (c : TransactionCommand) (htx : prev.tx = c.tx) (hcl : prev.client = c.client) :
    (specLegalTransition prev.kind c.kind = true →
        prev.apply c = .ok { tx := prev.tx, amount := transitionAmount prev,
                             kind := c.kind, client := prev.client }) ∧
    (specLegalTransition prev.kind c.kind = false →
        prev.apply c = .error (.InvalidState prev.kind c.kind)) ∧
    (∀ a, c.kind = .Deposit a ∨ c.kind = .Withdrawal a →
        prev.apply c = .error (.InvalidState prev.kind c.kind)) ∧
    ((prev.kind = .Resolve ∨ prev.kind = .ChargeBack) →
        prev.apply c = .error (.InvalidState prev.kind c.kind)) := by
  refine ⟨fun hleg => ?_, fun hill => ?_, fun a hak => ?_, fun hterm => ?_⟩
  · cases hp : prev.kind <;> cases hk : c.kind <;>
      simp_all [Transaction.apply, specLegalTransition, transitionAmount]
  · cases hp : prev.kind <;> cases hk : c.kind <;>
      simp_all [Transaction.apply, specLegalTransition]
  · rcases hak with hk | hk <;> cases hp : prev.kind <;>
      simp_all [Transaction.apply, specLegalTransition]
  · rcases hterm with hp | hp <;> cases hk : c.kind <;>
      simp_all [Transaction.apply, specLegalTransition]

theorem transaction_apply_transition_table_witness :
    (Transaction.mk 1 100 .Dispute 1).apply { kind := .Resolve, tx := 1, client := 1 } =
      .ok (Transaction.mk 1 100 .Resolve 1) :=
  (transaction_apply_transition_table (Transaction.mk 1 100 .Dispute 1)
      { kind := .Resolve, tx := 1, client := 1 } rfl rfl).1 rfl

/-- C4: for every command arriving when the ledger has no record under its tx
id, the engine takes the `Transaction::try_from` branch: a Dispute, Resolve, or
ChargeBack fails with the root-transaction error (the `anyhow!` message in the
code realises the spec's `RootTransactionRequired` kind) and the state is left
as it was, while a Deposit or Withdrawal converts successfully into a
Transaction copying tx, client, amount, and kind directly from the command. -/
theorem process_unknown_tx_root_rule (s : EngineState) (t : TransactionCommand)
    (hnone : s.getTransaction t.tx = none) :
    ((t.kind = .Dispute ∨ t.kind = .Resolve ∨ t.kind = .ChargeBack) →
        processTransaction s t =
          (s, some (.conversionErr "transactions must start with a deposit or withdrawal"))) ∧
    (∀ a, t.kind = .Deposit a ∨ t.kind = .Withdrawal a →
        Transaction.tryFrom t =
          .ok { tx := t.tx, amount := a, kind := t.kind, client := t.client }) := by
  constructor
  · intro hk
    have hconv : Transaction.tryFrom t =
        .error "transactions must start with a deposit or withdrawal" := by
      rcases hk with h | h | h <;> simp [Transaction.tryFrom, h]
    simp [processTransaction, stageTransaction, hnone, hconv]
  · intro a ha
    rcases ha with h | h <;> simp [Transaction.tryFrom, h]

theorem process_unknown_tx_root_rule_witness :
    processTransaction .empty { kind := .Dispute, tx := 99, client := 1 } =
      (.empty, some (.conversionErr "transactions must start with a deposit or withdrawal")) :=
  (process_unknown_tx_root_rule .empty { kind := .Dispute, tx := 99, client := 1 }
      rfl).1 (Or.inl rfl)

theorem process_success_saves_transaction (s : EngineState)
    (t : TransactionCommand) (tr : Transaction)
    (hstage : stageTransaction s t = .ok tr)
    (hok : (processTransaction s t).2 = none) :
    (processTransaction s t).1.getTransaction tr.tx = some tr := by
  cases h2 : stageAccount s tr with
  | error e =>
      exfalso
      unfold processTransaction at hok
      rw [hstage] at hok
      simp only [] at hok
      rw [h2] at hok
      simp at hok
  | ok updated =>
      unfold processTransaction
      rw [hstage]
      simp only []
      rw [h2]
      simpa [EngineState.getTransaction] using
        listFind_insert_self s.transactions tr.tx tr

/-- C3 counterexample: a Withdrawal command that first introduces a tx id does
not always create a ledger record. On empty repositories the command
Withdrawal(tx=1, client=1, amount=5) passes the state machine but fails
account creation (`Account::new` rejects a non-Deposit opening), so
`process_transaction` returns an error and the ledger still has no record
under id 1. -/
theorem first_withdrawal_creates_no_ledger_record :
    EngineState.empty.getTransaction 1 = none ∧
    processTransaction .empty { kind := .Withdrawal 5, tx := 1, client := 1 } =
      (.empty, some (.accountErr .InvalidInitialTransaction)) ∧
    (processTransaction .empty
        { kind := .Withdrawal 5, tx := 1, client := 1 }).1.getTransaction 1 =
      none := by decide

/-- C3 amended: for every command whose tx id is not yet in the ledger and
whose kind is Deposit or Withdrawal, if `process_transaction` succeeds on it
(the account stage must succeed too — a failing command saves nothing), then
the ledger afterwards contains a transaction record under that id, carrying
the command's tx, client, and kind. -/
theorem process_root_success_creates_record (s : EngineState)
    (t : TransactionCommand) (hnone : s.getTransaction t.tx = none)
    (hroot : (∃ a, t.kind = .Deposit a) ∨ (∃ a, t.kind = .Withdrawal a))
    (hok : (processTransaction s t).2 = none) :
    ∃ tr, (processTransaction s t).1.getTransaction t.tx = some tr ∧
      tr.tx = t.tx ∧ tr.client = t.client ∧ tr.kind = t.kind := by
  rcases hroot with ⟨a, hk⟩ | ⟨a, hk⟩ <;>
  · have hstage : stageTransaction s t =
        .ok { tx := t.tx, amount := a, kind := t.kind, client := t.client } := by
      simp [stageTransaction, hnone, Transaction.tryFrom, hk]
    exact ⟨_, process_success_saves_transaction s t _ hstage hok, rfl, rfl, rfl⟩

theorem process_root_success_creates_record_witness :
    ∃ tr, (processTransaction .empty
        { kind := .Deposit 10, tx := 1, client := 1 }).1.getTransaction 1 =
          some tr ∧ tr.tx = 1 ∧ tr.client = 1 ∧ tr.kind = .Deposit 10 :=
  process_root_success_creates_record .empty
    { kind := .Deposit 10, tx := 1, client := 1 } rfl (Or.inl ⟨10, rfl⟩) rfl

/-- C9: rejection is atomic and idempotent. Every fallible step of
`process_transaction` precedes the two repository saves and the in-memory
saves are infallible, so when processing a command returns an error the ledger
and the account store are exactly as they were, and processing the same
command again from that state yields the very same error. -/
theorem process_rejection_atomic_idempotent (s : EngineState)
    (t : TransactionCommand) (s' : EngineState) (e : ProcessError)
    (h : processTransaction s t = (s', some e)) :
    s' = s ∧ processTransaction s' t = (s', some e) := by
  unfold processTransaction at h
  cases h1 : stageTransaction s t with
  | error e1 =>
      rw [h1] at h
      simp only [Prod.mk.injEq, Option.some.injEq] at h
      obtain ⟨rfl, rfl⟩ := h
      exact ⟨rfl, by simp [processTransaction, h1]⟩
  | ok tr =>
      rw [h1] at h
      simp only [] at h
      cases h2 : stageAccount s tr with
      | error e2 =>
          rw [h2] at h
          simp only [Prod.mk.injEq, Option.some.injEq] at h
          obtain ⟨rfl, rfl⟩ := h
          exact ⟨rfl, by simp [processTransaction, h1, h2]⟩
      | ok updated =>
          rw [h2] at h
          simp at h

theorem process_rejection_atomic_idempotent_witness :
    EngineState.empty = EngineState.empty ∧
    processTransaction .empty { kind := .Resolve, tx := 4, client := 2 } =
      (.empty, some (.conversionErr "transactions must start with a deposit or withdrawal")) :=
  process_rejection_atomic_idempotent .empty
    { kind := .Resolve, tx := 4, client := 2 } .empty
    (.conversionErr "transactions must start with a deposit or withdrawal") (by decide)

theorem processTransaction_stage1_error (s : EngineState) (t : TransactionCommand)
    (e : ProcessError) (h : stageTransaction s t = .error e) :
    processTransaction s t = (s, some e) := by
  unfold processTransaction
  simp only [h]

theorem processTransaction_stage2_error (s : EngineState) (t : TransactionCommand)
    (tr : Transaction) (e : ProcessError) (h1 : stageTransaction s t = .ok tr)
    (h2 : stageAccount s tr = .error e) :
    processTransaction s t = (s, some e) := by
  unfold processTransaction
  simp only [h1, h2]

theorem processTransaction_success_eq (s : EngineState) (t : TransactionCommand)
    (tr : Transaction) (updated : Account) (h1 : stageTransaction s t = .ok tr)
    (h2 : stageAccount s tr = .ok updated) :
    processTransaction s t =
      ({ transactions := listInsert s.transactions tr.tx tr,
         accounts := listInsert s.accounts updated.client updated }, none) := by
  unfold processTransaction
  simp only [h1, h2]

theorem account_apply_ok_cases (acc : Account) (t : Transaction) (acc' : Account)
    (h : acc.apply t = .ok acc') :
    acc.client = t.client ∧ acc.locked = .Unlocked ∧ acc'.client = acc.client ∧
    acc'.locked = (match t.kind with | .ChargeBack => .Locked | _ => acc.locked) := by
  by_cases hc : acc.client = t.client
  · by_cases hl : acc.locked = .Locked
    · simp [Account.apply, Account.isLocked, hc, hl] at h
    · have hl' : acc.locked = .Unlocked := by
        cases hacc : acc.locked
        · exact absurd hacc hl
        · rfl
      refine ⟨hc, hl', ?_⟩
      cases hk : t.kind with
      | Deposit a =>
          simp [Account.apply, Account.isLocked, hc, hl', hk] at h
          rw [← h]
          exact ⟨hc.symm, by simp [hk, hl']⟩
      | Withdrawal a =>
          simp [Account.apply, Account.isLocked, hc, hl', hk] at h
          split at h
          · exact absurd h (by simp)
          · simp only [Except.ok.injEq] at h
            rw [← h]
            exact ⟨hc.symm, by simp [hk, hl']⟩
      | Dispute =>
          simp [Account.apply, Account.isLocked, hc, hl', hk] at h
          rw [← h]
          exact ⟨hc.symm, by simp [hk, hl']⟩
      | Resolve =>
          simp [Account.apply, Account.isLocked, hc, hl', hk] at h
          rw [← h]
          exact ⟨hc.symm, by simp [hk, hl']⟩
      | ChargeBack =>
          simp [Account.apply, Account.isLocked, hc, hl', hk] at h
          rw [← h]
          exact ⟨hc.symm, by simp [hk]⟩
  · simp [Account.apply, hc] at h

theorem account_new_ok_shape (tr : Transaction) (acc : Account)
    (h : Account.new tr = .ok acc) :
    acc.client = tr.client ∧ acc.locked = .Unlocked := by
  unfold Account.new at h
  cases hk : tr.kind <;> rw [hk] at h <;> simp at h
  rw [← h]
  exact ⟨rfl, rfl⟩

theorem stageAccount_ok_shape (s : EngineState) (tr : Transaction)
    (updated : Account) (h : stageAccount s tr = .ok updated) :
    updated.client = tr.client ∧
    (∀ acc2, s.getAccount tr.client = some acc2 → acc2.locked = .Unlocked) := by
  unfold stageAccount at h
  cases hg : s.getAccount tr.client with
  | some acc2 =>
      rw [hg] at h
      simp only [] at h
      cases ha : acc2.apply tr with
      | ok u =>
          rw [ha] at h
          simp only [Except.ok.injEq] at h
          subst h
          obtain ⟨hc, hl', hcl, _⟩ := account_apply_ok_cases acc2 tr u ha
          refine ⟨hcl.trans hc, fun a2 hga => ?_⟩
          obtain rfl := Option.some.inj hga
          exact hl'
      | error e =>
          rw [ha] at h
          simp at h
  | none =>
      rw [hg] at h
      simp only [] at h
      cases hn : Account.new tr with
      | ok u =>
          rw [hn] at h
          simp only [Except.ok.injEq] at h
          subst h
          refine ⟨(account_new_ok_shape tr u hn).1, fun a2 hga => ?_⟩
          exact absurd hga (by simp)
      | error e =>
          rw [hn] at h
          simp at h

/-- C8: the locked flag is monotone. `Account::new` always produces an
unlocked account; a successful `Account::apply` yields a locked account
exactly when the input was already locked or the transaction is a ChargeBack
(so a successful ChargeBack is the only operation that ever sets the flag); no
`Account::apply` succeeds at all on a locked account; and at the engine level,
once the account store holds a locked account under a key, processing any
command leaves that exact entry in place. -/
theorem locked_monotone :
    (∀ t acc, Account.new t = .ok acc → acc.locked = .Unlocked) ∧
    (∀ (acc : Account) (t : Transaction) (acc' : Account), acc.apply t = .ok acc' →
        (acc'.locked = .Locked ↔ (acc.locked = .Locked ∨ t.kind = .ChargeBack))) ∧
    (∀ (acc : Account) (t : Transaction), acc.locked = .Locked →
        ∀ acc', acc.apply t ≠ .ok acc') ∧
    (∀ (s : EngineState) (t : TransactionCommand) (c : ℕ) (acc : Account),
        s.getAccount c = some acc → acc.locked = .Locked →
        (processTransaction s t).1.getAccount c = some acc) := by
  refine ⟨?_, ?_, ?_, ?_⟩
  · intro t acc h
    exact (account_new_ok_shape t acc h).2
  · intro acc t acc' h
    obtain ⟨hc, hl', hcl, hlk⟩ := account_apply_ok_cases acc t acc' h
    rw [hlk, hl']
    cases hk : t.kind <;> simp [hk]
  · intro acc t hl acc' h
    have hu := (account_apply_ok_cases acc t acc' h).2.1
    rw [hl] at hu
    exact absurd hu (by simp)
  · intro s t c acc hget hl
    cases h1 : stageTransaction s t with
    | error e1 =>
        rw [processTransaction_stage1_error s t e1 h1]
        exact hget
    | ok tr =>
        cases h2 : stageAccount s tr with
        | error e2 =>
            rw [processTransaction_stage2_error s t tr e2 h1 h2]
            exact hget
        | ok updated =>
            rw [processTransaction_success_eq s t tr updated h1 h2]
            have hshape := stageAccount_ok_shape s tr updated h2
            have hne : updated.client ≠ c := by
              intro heq
              rw [hshape.1] at heq
              have hu : acc.locked = .Unlocked := by
                refine hshape.2 acc ?_
                rw [heq]
                exact hget
              rw [hl] at hu
              exact absurd hu (by simp)
            simp only [EngineState.getAccount]
            rw [listFind_insert_ne s.accounts updated.client c updated hne]
            exact hget

theorem locked_monotone_witness :
    (processTransaction { transactions := [], accounts := [(2, Account.mk 2 5 0 .Locked)] }
        { kind := .Deposit 3, tx := 1, client := 2 }).1.getAccount 2 =
      some (Account.mk 2 5 0 .Locked) :=
  locked_monotone.2.2.2
    { transactions := [], accounts := [(2, Account.mk 2 5 0 .Locked)] }
    { kind := .Deposit 3, tx := 1, client := 2 } 2 (Account.mk 2 5 0 .Locked) rfl rfl

theorem transaction_apply_error_shape (prev : Transaction) (c : TransactionCommand)
    (e : TransactionError) (h : prev.apply c = .error e) (htx : prev.tx = c.tx) :
    ∀ x y, e ≠ .UnexpectedTx x y := by
  intro x y heq
  subst heq
  unfold Transaction.apply at h
  rw [if_neg (by simp [htx])] at h
  by_cases hcl : prev.client = c.client
  · rw [if_neg (by simp [hcl])] at h
    cases hp : prev.kind <;> cases hk : c.kind <;> simp [hp, hk] at h
  · rw [if_pos (by simp [hcl])] at h
    simp at h

theorem account_apply_error_shape (acc : Account) (tr : Transaction)
    (e : AccountError) (h : acc.apply tr = .error e) (hc : acc.client = tr.client) :
    e ≠ .InvalidClient := by
  intro heq
  subst heq
  unfold Account.apply at h
  rw [if_neg (by simp [hc])] at h
  by_cases hl : acc.isLocked
  · rw [if_pos hl] at h
    simp at h
  · rw [if_neg hl] at h
    cases hk : tr.kind with
    | Withdrawal a =>
        rw [hk] at h
        simp only [] at h
        split at h <;> simp at h
    | Deposit a => rw [hk] at h; simp at h
    | Dispute => rw [hk] at h; simp at h
    | Resolve => rw [hk] at h; simp at h
    | ChargeBack => rw [hk] at h; simp at h

theorem account_new_error_shape (tr : Transaction) (e : AccountError)
    (h : Account.new tr = .error e) : e = .InvalidInitialTransaction := by
  unfold Account.new at h
  cases hk : tr.kind <;> rw [hk] at h <;> simp at h <;> exact h.symm

theorem stageTransaction_error_shape (s : EngineState) (t : TransactionCommand)
    (e : ProcessError) (h : stageTransaction s t = .error e)
    (hcoh : ∀ k tr, s.getTransaction k = some tr → tr.tx = k) :
    ∀ x y, e ≠ .transactionErr (.UnexpectedTx x y) := by
  intro x y heq
  subst heq
  unfold stageTransaction at h
  cases hg : s.getTransaction t.tx with
  | some prev =>
      rw [hg] at h
      simp only [] at h
      cases ha : prev.apply t with
      | ok tr2 => rw [ha] at h; simp at h
      | error te =>
          rw [ha] at h
          simp only [Except.error.injEq, ProcessError.transactionErr.injEq] at h
          exact transaction_apply_error_shape prev t te ha (hcoh t.tx prev hg) x y h
  | none =>
      rw [hg] at h
      simp only [] at h
      cases hf : Transaction.tryFrom t with
      | ok tr2 => rw [hf] at h; simp at h
      | error msg =>
          rw [hf] at h
          simp at h

theorem stageAccount_error_shape (s : EngineState) (tr : Transaction)
    (e : ProcessError) (h : stageAccount s tr = .error e)
    (hcoh : ∀ c acc, s.getAccount c = some acc → acc.client = c) :
    e ≠ .accountErr .InvalidClient := by
  intro heq
  subst heq
  unfold stageAccount at h
  cases hg : s.getAccount tr.client with
  | some acc =>
      rw [hg] at h
      simp only [] at h
      cases ha : acc.apply tr with
      | ok u => rw [ha] at h; simp at h
      | error ae =>
          rw [ha] at h
          simp only [Except.error.injEq, ProcessError.accountErr.injEq] at h
          exact account_apply_error_shape acc tr ae ha (hcoh tr.client acc hg) h
  | none =>
      rw [hg] at h
      simp only [] at h
      cases hn : Account.new tr with
      | ok u => rw [hn] at h; simp at h
      | error ae =>
          rw [hn] at h
          simp only [Except.error.injEq, ProcessError.accountErr.injEq] at h
          rw [account_new_error_shape tr ae hn] at h
          exact absurd h (by simp)

theorem coherent_empty : EngineState.empty.coherent := by
  constructor <;> intro a b hfind <;>
    simp [EngineState.empty, EngineState.getTransaction, EngineState.getAccount,
      listFind] at hfind

theorem coherent_step (s : EngineState) (t : TransactionCommand)
    (h : s.coherent) : (processTransaction s t).1.coherent := by
  cases h1 : stageTransaction s t with
  | error e1 =>
      rw [processTransaction_stage1_error s t e1 h1]
      exact h
  | ok tr =>
      cases h2 : stageAccount s tr with
      | error e2 =>
          rw [processTransaction_stage2_error s t tr e2 h1 h2]
          exact h
      | ok updated =>
          rw [processTransaction_success_eq s t tr updated h1 h2]
          constructor
          · intro k' tr' hfind
            simp only [EngineState.getTransaction] at hfind
            rcases listFind_insert_cases s.transactions tr.tx k' tr tr' hfind with
              ⟨rfl, rfl⟩ | hold
            · rfl
            · exact h.1 k' tr' hold
          · intro c' acc' hfind
            simp only [EngineState.getAccount] at hfind
            rcases listFind_insert_cases s.accounts updated.client c' updated acc' hfind with
              ⟨rfl, rfl⟩ | hold
            · rfl
            · exact h.2 c' acc' hold

theorem coherent_foldl (cmds : List TransactionCommand) (s : EngineState)
    (h : s.coherent) :
    (cmds.foldl (fun s' t => (processTransaction s' t).1) s).coherent := by
  induction cmds generalizing s with
  | nil => exact h
  | cons c rest ih => exact ih _ (coherent_step s c h)

/-- C10: starting from empty repositories, every state reachable through the
engine is key-coherent — the ledger maps each key only to a transaction with
that tx id and the account store maps each key only to an account of that
client — and consequently, through `process_transaction`, the state machine's
tx-mismatch error (`UnexpectedTx`) and the balance engine's client-mismatch
error (`InvalidClient`) can never be returned. -/
theorem engine_key_coherence (cmds : List TransactionCommand) :
    (processAll cmds).coherent ∧
    ∀ (t : TransactionCommand) (e : ProcessError),
      (processTransaction (processAll cmds) t).2 = some e →
      (∀ x y, e ≠ .transactionErr (.UnexpectedTx x y)) ∧
      e ≠ .accountErr .InvalidClient := by
  have hcoh : (processAll cmds).coherent :=
    coherent_foldl cmds .empty coherent_empty
  refine ⟨hcoh, fun t e he => ?_⟩
  cases h1 : stageTransaction (processAll cmds) t with
  | error e1 =>
      rw [processTransaction_stage1_error _ t e1 h1] at he
      obtain rfl := Option.some.inj he
      refine ⟨stageTransaction_error_shape _ t e1 h1 hcoh.1, ?_⟩
      intro heq
      subst heq
      unfold stageTransaction at h1
      cases hg : (processAll cmds).getTransaction t.tx with
      | some prev =>
          rw [hg] at h1
          simp only [] at h1
          cases ha : prev.apply t with
          | ok tr2 => rw [ha] at h1; simp at h1
          | error te => rw [ha] at h1; simp at h1
      | none =>
          rw [hg] at h1
          simp only [] at h1
          cases hf : Transaction.tryFrom t with
          | ok tr2 => rw [hf] at h1; simp at h1
          | error msg => rw [hf] at h1; simp at h1
  | ok tr =>
      cases h2 : stageAccount (processAll cmds) tr with
      | error e2 =>
          rw [processTransaction_stage2_error _ t tr e2 h1 h2] at he
          obtain rfl := Option.some.inj he
          refine ⟨?_, stageAccount_error_shape _ tr e2 h2 hcoh.2⟩
          intro x y heq
          subst heq
          unfold stageAccount at h2
          cases hg : (processAll cmds).getAccount tr.client with
          | some acc =>
              rw [hg] at h2
              simp only [] at h2
              cases ha : acc.apply tr with
              | ok u => rw [ha] at h2; simp at h2
              | error ae => rw [ha] at h2; simp at h2
          | none =>
              rw [hg] at h2
              simp only [] at h2
              cases hn : Account.new tr with
              | ok u => rw [hn] at h2; simp at h2
              | error ae => rw [hn] at h2; simp at h2
      | ok updated =>
          rw [processTransaction_success_eq _ t tr updated h1 h2] at he
          simp at he

theorem engine_key_coherence_witness :
    (∀ x y, (ProcessError.conversionErr
        "transactions must start with a deposit or withdrawal") ≠
      .transactionErr (.UnexpectedTx x y)) ∧
    (ProcessError.conversionErr
        "transactions must start with a deposit or withdrawal") ≠
      .accountErr .InvalidClient :=
  (engine_key_coherence []).2 { kind := .Dispute, tx := 1, client := 1 }
    (.conversionErr "transactions must start with a deposit or withdrawal")
    (by decide)
